import Mathlib

/-!
Formal model of the graphic-score analyzer (`graph_score.py`).

The Python program analyzes images of graphic scores, manages an ordered
set of score pages with display durations, and scans a sliding window
across a page while emitting statistics over OSC.  The definitions below
are a shallow embedding of the pure state and arithmetic of that
program:

* machine floats are modeled as exact rationals (`ℚ`);
* the OpenCV/numpy library calls whose values the program consumes
  (SIFT keypoint detection, grayscale standard deviation) are modeled as
  inputs of the functions that use their results;
* numpy's NaN, produced by `np.mean` on an empty list, is modeled as
  `Option.none`;
* Python's `%` on integers agrees with `Int.emod` for a positive
  modulus, which is the only way the program uses it;
* a Python `IndexError` on list indexing is modeled as an explicit
  error value.
-/

/-- A SIFT keypoint as consumed by `analyze_image`: a position `kp.pt`
and a characteristic scale `kp.size`. -/
structure Keypoint where
  x : ℚ
  y : ℚ
  size : ℚ
  deriving DecidableEq

/-- Model of `np.mean` on a list of reals. `none` models the NaN that
numpy returns (with a runtime warning, not an exception) when the list
is empty; otherwise the arithmetic mean is returned. -/
noncomputable def npMeanR (l : List ℝ) : Option ℝ :=
  match l with
  | [] => none
  | _ :: _ => some (l.sum / l.length)

/-- `min_size = min(sizes) if sizes else 0` (graph_score.py line 335).
Python's `min` over a non-empty list is a left fold of binary `min`. -/
def min_size_of : List ℚ → ℚ
  | [] => 0
  | x :: xs => xs.foldl min x

/-- `avg_size = np.mean(sizes) if sizes else 0` (line 336). -/
def avg_size_of : List ℚ → ℚ
  | [] => 0
  | x :: xs => ((x :: xs).sum) / ((x :: xs).length : ℚ)

/-- `max_size = max(sizes) if sizes else 0` (line 337). -/
def max_size_of : List ℚ → ℚ
  | [] => 0
  | x :: xs => xs.foldl max x

/-- Euclidean distance of a keypoint from the integer center
`(gray.shape[1] // 2, gray.shape[0] // 2)` (lines 340-341); Python `//`
is floor division, `Int.fdiv`. -/
noncomputable def keypointDist (w h : ℤ) (kp : Keypoint) : ℝ :=
  Real.sqrt (((kp.x - (Int.fdiv w 2 : ℤ)) ^ 2 + (kp.y - (Int.fdiv h 2 : ℤ)) ^ 2 : ℚ) : ℝ)

/-- The tuple returned by `analyze_image` (line 346). -/
structure AnalysisResult where
  contrast : ℚ
  object_count : ℕ
  sizes : List ℚ
  proximity : Option ℝ
  min_size : ℚ
  avg_size : ℚ
  max_size : ℚ
  positions : List (ℚ × ℚ)

/-- `analyze_image` (lines 314-346).  The SIFT detector's keypoint list
and the grayscale standard deviation `gray.std()` are external library
results, so they enter as arguments `keypoints` and `contrast`; `w` and
`h` are `gray.shape[1]` and `gray.shape[0]`.  `object_count` is
`len(keypoints)`, `sizes` the list of `kp.size`, `proximity` the numpy
mean of center distances (NaN, i.e. `none`, when there are no
keypoints), and `positions` the positions normalized by width and
height. -/
noncomputable def analyze_image (contrast : ℚ) (keypoints : List Keypoint) (w h : ℤ) :
    AnalysisResult :=
  { contrast := contrast
    object_count := keypoints.length
    sizes := keypoints.map Keypoint.size
    proximity := npMeanR (keypoints.map (keypointDist w h))
    min_size := min_size_of (keypoints.map Keypoint.size)
    avg_size := avg_size_of (keypoints.map Keypoint.size)
    max_size := max_size_of (keypoints.map Keypoint.size)
    positions := keypoints.map (fun kp => (kp.x / (w : ℚ), kp.y / (h : ℚ))) }

/-- Result of a Python expression that either yields a value, yields the
`(None, None)` sentinel, or raises `IndexError`. -/
inductive PyLookup (α : Type) where
  | ok (a : α)
  | sentinel
  | indexError
  deriving DecidableEq

/-- Python list indexing `l[i]`: non-negative indices address from the
front, indices in `[-len, 0)` wrap from the back, anything else raises
`IndexError` (modeled as `none`). -/
def pyGet {α : Type} (l : List α) (i : ℤ) : Option α :=
  if 0 ≤ i then l.get? i.toNat
  else if 0 ≤ i + (l.length : ℤ) then l.get? (i + (l.length : ℤ)).toNat
  else none

/-- The `ScoreManager` class (lines 51-120): an ordered list of
`(path, duration)` pairs, a current-page cursor, a dictionary of cached
per-page analyses (keyed by page index, value type `A`), and the unused
`auto_scanning` flag. -/
structure ScoreManager (A : Type) where
  scores : List (String × ℚ)
  current_index : ℤ
  analyzed_pages : List (ℤ × A)
  auto_scanning : Bool

/-- `add_score` (lines 58-59): appends `(path, float(duration))`
unconditionally. -/
def ScoreManager.add_score {A : Type} (m : ScoreManager A) (path : String) (duration : ℚ) :
    ScoreManager A :=
  { m with scores := m.scores ++ [(path, duration)] }

/-- `remove_score` (lines 61-66): pops the entry when `0 <= index <
len(scores)` and deletes that key from `analyzed_pages`; otherwise a
no-op.  The cursor `current_index` is not touched. -/
def ScoreManager.remove_score {A : Type} (m : ScoreManager A) (index : ℤ) : ScoreManager A :=
  if 0 ≤ index ∧ index < (m.scores.length : ℤ) then
    { m with
      scores := m.scores.eraseIdx index.toNat
      analyzed_pages := m.analyzed_pages.filter (fun kv => decide (kv.1 ≠ index)) }
  else m

/-- `get_current_score` (lines 68-71): `(None, None)` when the store is
empty, else `scores[current_index]`, which raises `IndexError` when the
cursor is out of range. -/
def ScoreManager.get_current_score {A : Type} (m : ScoreManager A) :
    PyLookup (String × ℚ) :=
  if m.scores = [] then PyLookup.sentinel
  else
    match pyGet m.scores m.current_index with
    | some p => PyLookup.ok p
    | none => PyLookup.indexError

/-- `get_total_duration` (lines 73-74): sum of the durations. -/
def ScoreManager.get_total_duration {A : Type} (m : ScoreManager A) : ℚ :=
  (m.scores.map Prod.snd).sum

/-- `has_next_score` (lines 82-83):
`len(scores) > 1 and current_index < len(scores) - 1`. -/
def ScoreManager.has_next_score {A : Type} (m : ScoreManager A) : Bool :=
  decide (1 < m.scores.length) && decide (m.current_index < (m.scores.length : ℤ) - 1)

/-- `next_score` (lines 110-114): when the store is non-empty move the
cursor to `(current_index + 1) % len(scores)` and return the current
score; otherwise return the `(None, None)` sentinel unchanged. -/
def ScoreManager.next_score {A : Type} (m : ScoreManager A) :
    ScoreManager A × PyLookup (String × ℚ) :=
  if m.scores = [] then (m, PyLookup.sentinel)
  else
    let m' := { m with current_index := (m.current_index + 1) % (m.scores.length : ℤ) }
    (m', m'.get_current_score)

/-- `previous_score` (lines 116-120): as `next_score` but with
`(current_index - 1) % len(scores)`. -/
def ScoreManager.previous_score {A : Type} (m : ScoreManager A) :
    ScoreManager A × PyLookup (String × ℚ) :=
  if m.scores = [] then (m, PyLookup.sentinel)
  else
    let m' := { m with current_index := (m.current_index - 1) % (m.scores.length : ℤ) }
    (m', m'.get_current_score)

/-- The manager state after a `next_score` call (its returned pair's
first component in this model; in Python the mutation of `self`). -/
def nextState {A : Type} (m : ScoreManager A) : ScoreManager A :=
  (m.next_score).1

/-!
The scan engine (`main`, lines 397-592).
-/

/-- `scan_width = 60` (line 526). -/
def scan_width : ℤ := 60

/-- `num_steps = (image.shape[1] - scan_width) + 1` (line 528), as a
function of the image width. -/
def num_steps_of (w : ℤ) : ℤ := (w - scan_width) + 1

/-- `cv2.resize(image, (1424, 848))` (line 405 and line 92): every
loaded raster is resized to the fixed 1424 × 848 canvas, whatever its
original dimensions. -/
def resize (_w _h : ℤ) : ℤ × ℤ := (1424, 848)

/-- The step count `main` actually uses for an input raster of
dimensions `w × h`: `num_steps` computed on the resized width. -/
def main_num_steps (w h : ℤ) : ℤ := num_steps_of (resize w h).1

/-- `step_duration = duration / num_steps` (line 529). -/
def step_duration (duration : ℚ) (n : ℤ) : ℚ := duration / (n : ℚ)

/-- One key read by `cv2.waitKey` during a scan step: `r` (reverse),
`f` (forward), `esc` (cancel), or anything else (`noKey`). -/
inductive Key where
  | r
  | f
  | esc
  | noKey
  deriving DecidableEq

/-- Why the scan step loop (lines 533-578) stopped: the offset left
`[0, num_steps)`, the ESC key cancelled, or the modeled key stream was
exhausted (the loop itself would keep running). -/
inductive ScanExit where
  | outOfRange
  | cancelled
  | fuelOut
  deriving DecidableEq

/-- `current_position = 0 if not reverse_scan else num_steps - 1`
(line 531). -/
def scanInit (rev : Bool) (n : ℤ) : ℤ := if rev then n - 1 else 0

/-- The scan step loop (lines 533-578).  Each iteration consumes one
key from the `waitKey` stream: the loop guard `0 <= current_position <
num_steps` is checked first; ESC breaks out before the step body runs;
`r`/`f` set the direction flag; then the step executes at the current
offset (window extraction, `analyze_image`, OSC emission — the offset
is recorded in the returned list) and the offset moves by `-1` or `+1`
according to the direction flag. -/
def scanLoop : List Key → ℤ → Bool → ℤ → List ℤ × ScanExit
  | [], pos, _, n =>
      ([], if 0 ≤ pos ∧ pos < n then ScanExit.fuelOut else ScanExit.outOfRange)
  | k :: ks, pos, rev, n =>
      if 0 ≤ pos ∧ pos < n then
        if k = Key.esc then ([], ScanExit.cancelled)
        else
          let rev' := if k = Key.r then true else if k = Key.f then false else rev
          let rest := scanLoop ks (if rev' then pos - 1 else pos + 1) rev' n
          (pos :: rest.1, rest.2)
      else ([], ScanExit.outOfRange)

/-- Mode of the session loop in `main`: waiting for commands in the
display loop, or inside an active scan. -/
inductive EngineMode where
  | idle
  | scanning
  deriving DecidableEq

/-- The mode a re-invocation of `main` starts in (lines 397-463): it
displays the page and polls for a key; the `auto_play` argument is
never read, so no scan starts without a new scan command. -/
def mainEntry : EngineMode := EngineMode.idle

/-- Lines 580-587: what happens when the step loop has stopped.  ESC
set `scanning = False`, so the page-advance check fails and the session
falls back to the display loop.  When the offset left the range
(`scanning` still true), the engine advances the store and re-invokes
`main` on the next page when `has_next_score()`, else sets
`scanning = False` and returns to the display loop on the same page.
An exhausted key stream means the loop is still running. -/
def scanEnd {A : Type} (m : ScoreManager A) : ScanExit → ScoreManager A × EngineMode
  | ScanExit.cancelled => (m, EngineMode.idle)
  | ScanExit.fuelOut => (m, EngineMode.scanning)
  | ScanExit.outOfRange =>
      if m.has_next_score then ((m.next_score).1, mainEntry)
      else (m, EngineMode.idle)

/-- A whole scan pass (the body of the outer `while scanning` loop,
lines 524-587): run the step loop from the direction-dependent start
offset, then dispatch on why it stopped.  Returns the visited offsets,
the resulting store state, and the session mode. -/
def scanSession {A : Type} (keys : List Key) (rev : Bool) (n : ℤ) (m : ScoreManager A) :
    List ℤ × (ScoreManager A × EngineMode) :=
  let r := scanLoop keys (scanInit rev n) rev n
  (r.1, scanEnd m r.2)

/-!
Helper lemmas.
-/

theorem foldl_min_le_init (xs : List ℚ) (x : ℚ) : xs.foldl min x ≤ x := by
  induction xs generalizing x with
  | nil => simp
  | cons y ys ih =>
      rw [List.foldl_cons]
      exact le_trans (ih (min x y)) (min_le_left x y)

theorem foldl_min_le_mem (xs : List ℚ) (x a : ℚ) (ha : a ∈ x :: xs) : xs.foldl min x ≤ a := by
  induction xs generalizing x with
  | nil =>
      rw [List.foldl_nil]
      rcases List.mem_singleton.mp ha with rfl
      exact le_refl a
  | cons y ys ih =>
      rw [List.foldl_cons]
      rcases List.mem_cons.mp ha with rfl | ha'
      · exact le_trans (foldl_min_le_init ys (min a y)) (min_le_left a y)
      · rcases List.mem_cons.mp ha' with rfl | ha''
        · exact le_trans (foldl_min_le_init ys (min x a)) (min_le_right x a)
        · exact ih (min x y) (List.mem_cons_of_mem _ ha'')

theorem le_foldl_max_init (xs : List ℚ) (x : ℚ) : x ≤ xs.foldl max x := by
  induction xs generalizing x with
  | nil => simp
  | cons y ys ih =>
      rw [List.foldl_cons]
      exact le_trans (le_max_left x y) (ih (max x y))

theorem mem_le_foldl_max (xs : List ℚ) (x a : ℚ) (ha : a ∈ x :: xs) : a ≤ xs.foldl max x := by
  induction xs generalizing x with
  | nil =>
      rw [List.foldl_nil]
      rcases List.mem_singleton.mp ha with rfl
      exact le_refl a
  | cons y ys ih =>
      rw [List.foldl_cons]
      rcases List.mem_cons.mp ha with rfl | ha'
      · exact le_trans (le_max_left a y) (le_foldl_max_init ys (max a y))
      · rcases List.mem_cons.mp ha' with rfl | ha''
        · exact le_trans (le_max_right x a) (le_foldl_max_init ys (max x a))
        · exact ih (max x y) (List.mem_cons_of_mem _ ha'')

theorem mul_length_le_sum (l : List ℚ) (c : ℚ) (h : ∀ a ∈ l, c ≤ a) :
    c * (l.length : ℚ) ≤ l.sum := by
  induction l with
  | nil => simp
  | cons x xs ih =>
      have hx : c ≤ x := h x (List.mem_cons_self x xs)
      have hxs := ih fun a ha => h a (List.mem_cons_of_mem x ha)
      rw [List.sum_cons, List.length_cons]
      push_cast
      have hexp : c * ((xs.length : ℚ) + 1) = c * (xs.length : ℚ) + c := by ring
      rw [hexp]
      linarith

theorem sum_le_mul_length (l : List ℚ) (c : ℚ) (h : ∀ a ∈ l, a ≤ c) :
    l.sum ≤ c * (l.length : ℚ) := by
  induction l with
  | nil => simp
  | cons x xs ih =>
      have hx : x ≤ c := h x (List.mem_cons_self x xs)
      have hxs := ih fun a ha => h a (List.mem_cons_of_mem x ha)
      rw [List.sum_cons, List.length_cons]
      push_cast
      have hexp : c * ((xs.length : ℚ) + 1) = c * (xs.length : ℚ) + c := by ring
      rw [hexp]
      linarith

theorem min_size_of_le_avg_size_of (l : List ℚ) (h : l ≠ []) :
    min_size_of l ≤ avg_size_of l := by
  match l, h with
  | x :: xs, _ =>
    rw [min_size_of, avg_size_of]
    have hl : (0 : ℚ) < (((x :: xs).length : ℕ) : ℚ) := by
      rw [List.length_cons]
      push_cast
      positivity
    rw [le_div_iff₀ hl]
    exact mul_length_le_sum (x :: xs) _ (fun a ha => foldl_min_le_mem xs x a ha)

theorem avg_size_of_le_max_size_of (l : List ℚ) (h : l ≠ []) :
    avg_size_of l ≤ max_size_of l := by
  match l, h with
  | x :: xs, _ =>
    rw [max_size_of, avg_size_of]
    have hl : (0 : ℚ) < (((x :: xs).length : ℕ) : ℚ) := by
      rw [List.length_cons]
      push_cast
      positivity
    rw [div_le_iff₀ hl]
    exact le_trans (sum_le_mul_length (x :: xs) _ (fun a ha => mem_le_foldl_max xs x a ha))
      (le_of_eq rfl)

theorem scanLoop_offsets_in_range (keys : List Key) :
    ∀ (pos : ℤ) (rev : Bool) (n : ℤ) (o : ℤ),
      o ∈ (scanLoop keys pos rev n).1 → 0 ≤ o ∧ o < n := by
  induction keys with
  | nil =>
      intro pos rev n o ho
      simp [scanLoop] at ho
  | cons k ks ih =>
      intro pos rev n o ho
      by_cases h : 0 ≤ pos ∧ pos < n
      · by_cases hk : k = Key.esc
        · simp [scanLoop, h, hk] at ho
        · simp only [scanLoop, if_pos h, if_neg hk, List.mem_cons] at ho
          rcases ho with rfl | ho'
          · exact h
          · exact ih _ _ _ _ ho'
      · simp [scanLoop, h] at ho

/-!
Claim theorems.
-/

/-- C7: for a region in which zero keypoints are detected,
`analyze_image` returns `object_count = 0` with empty `sizes` and
`positions` lists, and `proximity` is numpy's NaN sentinel (modeled as
`none`) — `np.mean([])` returns NaN with a warning rather than raising
an arithmetic error. -/
theorem zero_keypoints_return_empty_stats (contrast : ℚ) (w h : ℤ) :
    (analyze_image contrast [] w h).object_count = 0 ∧
    (analyze_image contrast [] w h).sizes = [] ∧
    (analyze_image contrast [] w h).positions = [] ∧
    (analyze_image contrast [] w h).proximity = none :=
  ⟨rfl, rfl, rfl, rfl⟩

/-- C10: for every analyzed region, the size statistics returned by
`analyze_image` satisfy `min_size ≤ avg_size ≤ max_size` whenever at
least one keypoint is detected, and all three equal 0 when no keypoint
is detected. -/
theorem size_stats_ordered (contrast : ℚ) (kps : List Keypoint) (w h : ℤ) :
    (kps ≠ [] →
      (analyze_image contrast kps w h).min_size ≤ (analyze_image contrast kps w h).avg_size ∧
      (analyze_image contrast kps w h).avg_size ≤ (analyze_image contrast kps w h).max_size) ∧
    (kps = [] →
      (analyze_image contrast kps w h).min_size = 0 ∧
      (analyze_image contrast kps w h).avg_size = 0 ∧
      (analyze_image contrast kps w h).max_size = 0) := by
  constructor
  · intro hne
    have hm : kps.map Keypoint.size ≠ [] := by
      simpa [List.map_eq_nil_iff] using hne
    exact ⟨min_size_of_le_avg_size_of _ hm, avg_size_of_le_max_size_of _ hm⟩
  · intro he
    subst he
    exact ⟨rfl, rfl, rfl⟩

/-- Witness for C10: a concrete two-keypoint analysis (sizes 3 and 7)
has `min_size ≤ avg_size` and `avg_size ≤ max_size`. -/
theorem size_stats_ordered_witness :
    (analyze_image 0 [⟨1, 2, 3⟩, ⟨4, 5, 7⟩] 10 10).min_size ≤
      (analyze_image 0 [⟨1, 2, 3⟩, ⟨4, 5, 7⟩] 10 10).avg_size ∧
    (analyze_image 0 [⟨1, 2, 3⟩, ⟨4, 5, 7⟩] 10 10).avg_size ≤
      (analyze_image 0 [⟨1, 2, 3⟩, ⟨4, 5, 7⟩] 10 10).max_size :=
  (size_stats_ordered 0 [⟨1, 2, 3⟩, ⟨4, 5, 7⟩] 10 10).1 (by simp)

/-- C2 counterexample: `add_score` performs no duration validation.
Adding a page with duration `-1` to an empty store stores the page (the
sequence grows to length 1) and changes the total duration to `-1`,
refuting the claim that a duration ≤ 0 is rejected and leaves the store
unchanged. -/
theorem add_score_ignores_invalid_duration :
    ((⟨[], 0, [], false⟩ : ScoreManager Unit).add_score "page.png" (-1)).scores.length = 1 ∧
    ((⟨[], 0, [], false⟩ : ScoreManager Unit).add_score "page.png" (-1)).get_total_duration
      = -1 := by
  constructor
  · rfl
  · norm_num [ScoreManager.add_score, ScoreManager.get_total_duration]

/-- C2 amended: `add_score` appends unconditionally for every duration,
including durations ≤ 0: the page is stored at the end of the sequence
and the total duration changes by exactly the given duration; no
`InvalidDuration` failure exists in the code. -/
theorem add_score_appends_unconditionally {A : Type} (m : ScoreManager A) (path : String)
    (d : ℚ) :
    (m.add_score path d).scores = m.scores ++ [(path, d)] ∧
    (m.add_score path d).get_total_duration = m.get_total_duration + d := by
  refine ⟨rfl, ?_⟩
  simp [ScoreManager.add_score, ScoreManager.get_total_duration]

/-- C3 (code bug): from the state with pages
`[("p0", 10), ("p1", 20)]` and `current_index = 1`, `remove_score 1`
leaves a non-empty store of length 1 whose `current_index` is still 1 —
an invalid index — and `get_current_score` then raises `IndexError`.
The removal operation does not preserve the current-index invariant. -/
theorem remove_score_breaks_index_invariant :
    ((⟨[("p0", 10), ("p1", 20)], 1, [], false⟩ : ScoreManager Unit).remove_score 1).scores.length
      = 1 ∧
    ((⟨[("p0", 10), ("p1", 20)], 1, [], false⟩ : ScoreManager Unit).remove_score 1).scores ≠ [] ∧
    ¬(((⟨[("p0", 10), ("p1", 20)], 1, [], false⟩ : ScoreManager Unit).remove_score 1).current_index
        < ((((⟨[("p0", 10), ("p1", 20)], 1, [], false⟩ : ScoreManager Unit).remove_score 1).scores.length : ℕ) : ℤ)) ∧
    ((⟨[("p0", 10), ("p1", 20)], 1, [], false⟩ : ScoreManager Unit).remove_score 1).get_current_score
      = PyLookup.indexError := by
  refine ⟨rfl, ?_, ?_, rfl⟩
  · decide
  · decide

/-- C1: for a page raster at least as wide as the scan window, the scan
engine's step count is `pageWidth - windowWidth + 1` (so width 1424
with window width 60 gives 1365 steps), and every step of the scan loop
executes at an offset in `[0, num_steps)`, for any key stream and
either initial direction. -/
theorem scan_step_count_and_offset_range (w : ℤ) (_hw : scan_width ≤ w)
    (keys : List Key) (rev : Bool) :
    num_steps_of w = w - 60 + 1 ∧
    num_steps_of 1424 = 1365 ∧
    ∀ o ∈ (scanLoop keys (scanInit rev (num_steps_of w)) rev (num_steps_of w)).1,
      0 ≤ o ∧ o < num_steps_of w := by
  refine ⟨rfl, by decide, ?_⟩
  intro o ho
  exact scanLoop_offsets_in_range keys _ rev _ o ho

/-- Witness for C1: at width 1424 the step count is 1365 and the first
offset the forward scan visits, 0, lies in `[0, 1365)`. -/
theorem scan_step_count_and_offset_range_witness :
    num_steps_of 1424 = 1365 ∧ (0 ≤ (0 : ℤ) ∧ (0 : ℤ) < num_steps_of 1424) := by
  have h := scan_step_count_and_offset_range 1424 (by decide) [Key.noKey] false
  exact ⟨h.2.1, h.2.2 0 (by decide)⟩

/-- C5 counterexample: a raster narrower than the scan window (width
30 < 60) is not surfaced as a no-op scan or a single full-width step:
after the unconditional resize to width 1424 the scan runs with 1365
steps.  There is no explicit degenerate-geometry guard in the code. -/
theorem degenerate_width_full_scan :
    (30 : ℤ) < scan_width ∧
    main_num_steps 30 848 = 1365 ∧
    ¬ main_num_steps 30 848 ≤ 1 := by
  refine ⟨by decide, rfl, by decide⟩

/-- C5 amended: starting a scan never divides by zero, but not because
of an explicit guard: every page raster, whatever its dimensions, is
resized to 1424 × 848 before scanning, so the step count the engine
divides by is always 1365 > 0 and the step duration is
`duration / 1365`. -/
theorem num_steps_positive_after_resize (w h : ℤ) (d : ℚ) :
    main_num_steps w h = 1365 ∧
    0 < main_num_steps w h ∧
    step_duration d (main_num_steps w h) = d / 1365 := by
  have h1 : main_num_steps w h = 1365 := rfl
  refine ⟨h1, by rw [h1]; decide, ?_⟩
  rw [h1]
  norm_num [step_duration]

/-- C6: a direction toggle between steps does not reset the offset.
If the scan is at offset `k` (with `0 < k < n`) and the reverse key is
received, the step at `k` executes and the next visited offset is
`k - 1` — not 0 and not `n - 1` — whatever non-cancelling key follows. -/
theorem direction_toggle_continues_from_offset (k n : ℤ) (rev : Bool)
    (knext : Key) (ks : List Key) (hk0 : 0 < k) (hkn : k < n) (hne : knext ≠ Key.esc) :
    (scanLoop (Key.r :: knext :: ks) k rev n).1.take 2 = [k, k - 1] := by
  have h1 : 0 ≤ k ∧ k < n := ⟨le_of_lt hk0, hkn⟩
  have h2 : 0 ≤ k - 1 ∧ k - 1 < n := ⟨by omega, by omega⟩
  cases knext with
  | esc => exact absurd rfl hne
  | r => simp [scanLoop, h1, h2, List.take]
  | f => simp [scanLoop, h1, h2, List.take]
  | noKey => simp [scanLoop, h1, h2, List.take]

/-- Witness for C6: at offset 5 of a 1365-step scan, a reverse toggle
followed by any other key visits offsets 5 then 4. -/
theorem direction_toggle_continues_from_offset_witness :
    (scanLoop [Key.r, Key.noKey] 5 false 1365).1.take 2 = [5, 4] := by
  have h := direction_toggle_continues_from_offset 5 1365 false Key.noKey []
    (by decide) (by decide) (by decide)
  norm_num at h
  exact h

theorem nextState_scores {A : Type} (m : ScoreManager A) : (nextState m).scores = m.scores := by
  unfold nextState ScoreManager.next_score
  by_cases h : m.scores = [] <;> simp [h]

theorem nextState_index {A : Type} (m : ScoreManager A) (h : m.scores ≠ []) :
    (nextState m).current_index = (m.current_index + 1) % (m.scores.length : ℤ) := by
  unfold nextState ScoreManager.next_score
  simp [h]

theorem emod_add_one (x n : ℤ) : (x % n + 1) % n = (x + 1) % n := by
  conv_lhs => rw [Int.add_emod, Int.emod_emod_of_dvd x dvd_rfl, ← Int.add_emod]

theorem nextState_iterate_index {A : Type} (m : ScoreManager A) (h : m.scores ≠ []) (k : ℕ) :
    (nextState^[k + 1] m).scores = m.scores ∧
    (nextState^[k + 1] m).current_index =
      (m.current_index + ((k : ℤ) + 1)) % (m.scores.length : ℤ) := by
  induction k with
  | zero =>
      rw [Function.iterate_one]
      refine ⟨nextState_scores m, ?_⟩
      rw [nextState_index m h]
      norm_num
  | succ t ih =>
      have hs : (nextState^[t + 1] m).scores = m.scores := ih.1
      have hne : (nextState^[t + 1] m).scores ≠ [] := by rw [hs]; exact h
      constructor
      · rw [Function.iterate_succ_apply', nextState_scores, hs]
      · rw [Function.iterate_succ_apply', nextState_index _ hne, hs, ih.2, emod_add_one]
        congr 1
        push_cast
        ring

/-- C8: on a non-empty store of length N with a valid cursor,
`next_score` moves the cursor to `(index + 1) % N` and `previous_score`
to `(index - 1) % N`, and N applications of `next_score` return the
cursor to the original index; on an empty store both are no-ops
returning the `(None, None)` sentinel. -/
theorem navigation_cyclic {A : Type} (m : ScoreManager A) :
    (m.scores ≠ [] → 0 ≤ m.current_index → m.current_index < (m.scores.length : ℤ) →
      ((m.next_score).1.current_index = (m.current_index + 1) % (m.scores.length : ℤ) ∧
       (m.previous_score).1.current_index = (m.current_index - 1) % (m.scores.length : ℤ) ∧
       (nextState^[m.scores.length] m).current_index = m.current_index)) ∧
    (m.scores = [] →
      m.next_score = (m, PyLookup.sentinel) ∧
      m.previous_score = (m, PyLookup.sentinel)) := by
  constructor
  · intro h h0 h1
    refine ⟨nextState_index m h, ?_, ?_⟩
    · unfold ScoreManager.previous_score
      simp [h]
    · obtain ⟨t, ht⟩ : ∃ t, m.scores.length = t + 1 :=
        ⟨m.scores.length - 1, (Nat.succ_pred_eq_of_pos (List.length_pos.mpr h)).symm⟩
      rw [ht, (nextState_iterate_index m h t).2]
      have hcast : ((t : ℤ) + 1) = (m.scores.length : ℤ) := by
        rw [ht]
        push_cast
        ring
      rw [hcast]
      have hmod := Int.add_mul_emod_self_left m.current_index (m.scores.length : ℤ) 1
      rw [mul_one] at hmod
      rw [hmod]
      exact Int.emod_eq_of_lt h0 h1
  · intro h
    constructor
    · unfold ScoreManager.next_score
      simp [h]
    · unfold ScoreManager.previous_score
      simp [h]

/-- Witness for C8: on a concrete two-page store with cursor 0,
`next_score` moves the cursor to 1. -/
theorem navigation_cyclic_witness :
    ((⟨[("a", 1), ("b", 2)], 0, [], false⟩ : ScoreManager Unit).next_score).1.current_index
      = 1 := by
  have h := ((navigation_cyclic (⟨[("a", 1), ("b", 2)], 0, [], false⟩ : ScoreManager Unit)).1
    (by decide) (by decide) (by decide)).1
  rw [h]
  decide

/-- C9: for every store state with a valid cursor, `has_next_score`
returns true exactly when the store holds more than one page and the
cursor is not at the last index. -/
theorem has_next_iff_more_pages_and_not_last {A : Type} (m : ScoreManager A)
    (_h0 : 0 ≤ m.current_index) (h1 : m.current_index < (m.scores.length : ℤ)) :
    m.has_next_score = true ↔
      (1 < m.scores.length ∧ m.current_index ≠ (m.scores.length : ℤ) - 1) := by
  unfold ScoreManager.has_next_score
  simp only [Bool.and_eq_true, decide_eq_true_eq]
  constructor
  · rintro ⟨hl, hlt⟩
    exact ⟨hl, by omega⟩
  · rintro ⟨hl, hne⟩
    exact ⟨hl, by omega⟩

/-- Witness for C9: a two-page store with cursor 0 has a next page. -/
theorem has_next_iff_more_pages_and_not_last_witness :
    (⟨[("a", 1), ("b", 2)], 0, [], false⟩ : ScoreManager Unit).has_next_score = true := by
  exact (has_next_iff_more_pages_and_not_last
    (⟨[("a", 1), ("b", 2)], 0, [], false⟩ : ScoreManager Unit)
    (by decide) (by decide)).mpr ⟨by decide, by decide⟩

/-- C4 counterexample: when the scan offset leaves the range and the
store has a next page, the engine does advance the cursor — but the
re-invoked `main` enters the idle display loop, not a fresh scan: the
resulting mode is `idle`, refuting the claim that scanning restarts
automatically on the next page. -/
theorem scan_end_enters_idle_not_scanning :
    (⟨[("a", 10), ("b", 20)], 0, [], false⟩ : ScoreManager Unit).has_next_score = true ∧
    (scanEnd (⟨[("a", 10), ("b", 20)], 0, [], false⟩ : ScoreManager Unit)
        ScanExit.outOfRange).2 ≠ EngineMode.scanning ∧
    (scanEnd (⟨[("a", 10), ("b", 20)], 0, [], false⟩ : ScoreManager Unit)
        ScanExit.outOfRange).2 = EngineMode.idle ∧
    (scanEnd (⟨[("a", 10), ("b", 20)], 0, [], false⟩ : ScoreManager Unit)
        ScanExit.outOfRange).1.current_index = 1 := by
  refine ⟨by decide, by decide, by decide, by decide⟩

/-- C4 amended: whenever the scan offset leaves `[0, num_steps)` the
scan for the current page ends; if `has_next_score()` the engine
advances the store to the next page and re-enters the idle display loop
on it (a new scan command is needed to scan again), otherwise it
returns to the idle display loop on the current page. -/
theorem scan_termination_page_advance {A : Type} (keys : List Key) (rev : Bool) (n : ℤ)
    (m : ScoreManager A)
    (hexit : (scanLoop keys (scanInit rev n) rev n).2 = ScanExit.outOfRange) :
    (scanSession keys rev n m).2.2 = EngineMode.idle ∧
    (m.has_next_score = true →
      (scanSession keys rev n m).2.1 = (m.next_score).1) ∧
    (m.has_next_score = false →
      (scanSession keys rev n m).2.1 = m) := by
  simp only [scanSession]
  rw [hexit]
  cases hn : m.has_next_score <;>
    simp [scanEnd, hn, mainEntry]

/-- Witness for C4: with one non-cancelling key and a single-step scan
(`n = 1`), the offset walks out of range; on a two-page store the
session ends in the idle mode. -/
theorem scan_termination_page_advance_witness :
    (scanSession [Key.noKey] false 1
      (⟨[("a", 10), ("b", 20)], 0, [], false⟩ : ScoreManager Unit)).2.2 = EngineMode.idle := by
  exact (scan_termination_page_advance [Key.noKey] false 1
    (⟨[("a", 10), ("b", 20)], 0, [], false⟩ : ScoreManager Unit) (by decide)).1
